import Mathlib

/-!
Verification of the call-graph / change-impact analyzer.

Shallow embedding of the repository's core:
- `CallGraph` with `add_method`, `add_call`, `get_callers`, `get_callees`,
  `save`/`load` (src/call_graph.py);
- method-call resolution `resolve_method_call` (src/ast_extractor.py,
  `JavaASTExtractor._resolve_method_call`);
- the unified-diff parser `parse_diff` (src/ast_extractor.py);
- the impact mapper `find_methods_by_lines` (src/ast_extractor.py).

Python dicts are modelled as association lists with first-match lookup and
in-place overwrite / append-at-end insertion; Python sets as `Finset`.
String scanning helpers are written over `String.data` (lists of characters)
so that all definitions evaluate by kernel reduction.
-/

/-- First-binding lookup in an association list, mirroring Python dict lookup
(our lists never carry duplicate keys). -/
def lookupStr {α : Type} (n : String) : List (String × α) → Option α
  | [] => none
  | (k, v) :: rest => if k = n then some v else lookupStr n rest

/-- Python dict assignment `d[k] = v`: overwrite the existing binding in place,
or append a fresh binding at the end (insertion order). -/
def dictInsert {α : Type} (k : String) (v : α) : List (String × α) → List (String × α)
  | [] => [(k, v)]
  | (k', v') :: rest => if k' = k then (k, v) :: rest else (k', v') :: dictInsert k v rest

/-- `s.startswith(p)` from Python, over character lists. -/
def strStartsWith (s p : String) : Bool :=
  p.data.isPrefixOf s.data

/-- Split a character list on `'.'` (helper for `splitOnDot`). -/
def splitDotAux : List Char → List Char → List (List Char)
  | [], acc => [acc.reverse]
  | c :: cs, acc => if c = '.' then acc.reverse :: splitDotAux cs [] else splitDotAux cs (c :: acc)

/-- Python `s.split('.')`: always returns at least one (possibly empty) part. -/
def splitOnDot (s : String) : List String :=
  (splitDotAux s.data []).map (fun l => ⟨l⟩)

/-- Python `s.split('.')[-1]` (the list is never empty, so the default is inert). -/
def lastSegment (s : String) : String :=
  (splitOnDot s).getLastD ""

/-- Python `s.strip('.')`: drop all leading and trailing dots. -/
def stripDotsBoth (s : String) : String :=
  ⟨((s.data.dropWhile (fun c => c = '.')).reverse.dropWhile (fun c => c = '.')).reverse⟩

/-- `re.sub(r'\.+', '.', s)` followed by `strip('.')`: collapse runs of dots
and drop boundary dots; equivalently, drop the empty dot-separated segments. -/
def normalizeDots (s : String) : String :=
  String.intercalate "." ((splitOnDot s).filter (fun p => p ≠ ""))

/-- Python `s.rsplit('.', 1)[0]`: everything before the last dot, or the whole
string when it has no dot. -/
def rsplitHead (s : String) : String :=
  let parts := splitOnDot s
  if parts.length ≤ 1 then s else String.intercalate "." parts.dropLast

/-- Directed adjacency stored per node of the call graph
(`self.edges[name] = {'callers': set(), 'callees': set()}`). -/
structure EdgeEntry where
  callers : Finset String
  callees : Finset String
deriving DecidableEq

/-- The argument record of `CallGraph.add_method` (`method_info`). -/
structure MethodInfo where
  name : String
  file_path : String
  class_name : String
  start_line : Option Nat
  end_line : Option Nat
  type : String
  modifiers : List String
  signature : Option String
deriving DecidableEq

/-- What `add_method` stores in `self.nodes[qualified_name]`. -/
structure NodeRecord where
  name : String
  qualified_name : String
  file_path : String
  class_name : String
  start_line : Option Nat
  end_line : Option Nat
  type : String
  modifiers : List String
  signature : String
deriving DecidableEq

/-- The call graph: `nodes` (method metadata) and `edges` (adjacency),
both keyed by qualified name (src/call_graph.py, class CallGraph). -/
structure CallGraph where
  nodes : List (String × NodeRecord)
  edges : List (String × EdgeEntry)
deriving DecidableEq

/-- `CallGraph.__init__`: empty nodes and edges. -/
def CallGraph.empty : CallGraph := ⟨[], []⟩

/-- Namespace prefixes excluded by `add_call` (standard-library namespaces). -/
def excludeNamespaces : List String :=
  ["java.", "javax.", "sun.", "com.sun.", "org.w3c.", "org.xml.", "org.ietf.",
   "org.omg.", "org.jcp.", "android."]

/-- `common_java_types` from `CallGraph.add_call`. -/
def commonJavaTypes : List String :=
  ["Object", "String", "Integer", "Long", "Double", "Float", "Boolean", "Byte",
   "Short", "Character",
   "Exception", "RuntimeException", "IllegalArgumentException", "NullPointerException",
   "IllegalStateException", "UnsupportedOperationException", "IndexOutOfBoundsException",
   "NoSuchElementException", "ClassCastException", "ArrayIndexOutOfBoundsException",
   "List", "ArrayList", "LinkedList", "Set", "HashSet", "Map", "HashMap", "TreeMap",
   "Collection", "Collections", "Arrays", "Iterator", "Iterable",
   "StringBuilder", "StringBuffer", "Math", "System", "Class", "Thread", "Runnable",
   "Optional", "Stream", "Collectors", "Objects", "PrintStream", "PrintWriter",
   "Console", "Scanner", "Random", "Date", "Calendar", "TimeZone"]

/-- `standard_method_patterns` from `CallGraph.add_call`. -/
def standardMethodPatterns : List String :=
  ["System.out", "System.err", "System.in",
   "System.currentTimeMillis", "System.nanoTime",
   "System.arraycopy", "System.getProperty",
   "System.setProperty", "System.getenv"]

/-- `is_standard_library_call` nested in `CallGraph.add_call`: a full-pattern
match against `standard_method_patterns`, or the name's last dot-separated
segment being a common Java type name. -/
def isStandardLibraryCall (method_name : String) : Bool :=
  standardMethodPatterns.any (fun p => strStartsWith method_name p) ||
  commonJavaTypes.any (fun t => lastSegment method_name = t)

/-- The combined filter of `CallGraph.add_call`: an edge is inserted iff both
early returns (excluded namespace prefix; standard-library type/method) are
not taken. -/
def acceptedCall (caller callee : String) : Bool :=
  !(excludeNamespaces.any (fun p => strStartsWith caller p) ||
    excludeNamespaces.any (fun p => strStartsWith callee p)) &&
  !(isStandardLibraryCall caller || isStandardLibraryCall callee)

/-- `if name not in self.edges: self.edges[name] = {'callers': set(), 'callees': set()}`. -/
def ensureNode (l : List (String × EdgeEntry)) (k : String) : List (String × EdgeEntry) :=
  match lookupStr k l with
  | some _ => l
  | none => dictInsert k ⟨∅, ∅⟩ l

/-- In-place update of one entry (`self.edges[k]['callees'].add(...)` etc.);
a no-op when the key is absent (in `add_call` the key is always present). -/
def modifyEntry (l : List (String × EdgeEntry)) (k : String) (f : EdgeEntry → EdgeEntry) :
    List (String × EdgeEntry) :=
  match lookupStr k l with
  | some e => dictInsert k (f e) l
  | none => l

/-- `CallGraph.add_call`: drop standard-library edges, otherwise initialize
both endpoints and insert the call into both adjacency sets. -/
def CallGraph.add_call (g : CallGraph) (caller callee : String) : CallGraph :=
  if acceptedCall caller callee = true then
    let e1 := ensureNode g.edges caller
    let e2 := ensureNode e1 callee
    let e3 := modifyEntry e2 caller (fun e => { e with callees := insert callee e.callees })
    let e4 := modifyEntry e3 callee (fun e => { e with callers := insert caller e.callers })
    { g with edges := e4 }
  else g

/-- `CallGraph.add_method`: overwrite the node record (building a fallback
signature when none is supplied — Python truthiness also rebuilds on the empty
string) and create an empty adjacency entry only when the name has none. -/
def CallGraph.add_method (g : CallGraph) (qualified_name : String) (info : MethodInfo) :
    CallGraph :=
  let fallback := (String.intercalate " " info.modifiers) ++ " " ++ info.name ++ "()"
  let signature :=
    match info.signature with
    | some s => if s = "" then fallback else s
    | none => fallback
  { nodes := dictInsert qualified_name
      ⟨info.name, qualified_name, info.file_path, info.class_name,
       info.start_line, info.end_line, info.type, info.modifiers, signature⟩ g.nodes,
    edges := ensureNode g.edges qualified_name }

/-- `CallGraph.get_callers`: the set of elements of the returned list
(`list(self.edges[name]['callers'])`, `[]` when the name is absent). -/
def CallGraph.get_callers (g : CallGraph) (method_name : String) : Finset String :=
  match lookupStr method_name g.edges with
  | some e => e.callers
  | none => ∅

/-- `CallGraph.get_callees`: the set of elements of the returned list. -/
def CallGraph.get_callees (g : CallGraph) (method_name : String) : Finset String :=
  match lookupStr method_name g.edges with
  | some e => e.callees
  | none => ∅

/-- Characters rejected by `CallGraph._is_valid_method_name`
(`set('<>(){}[]\\/')`). -/
def invalidNameChars : List Char :=
  ['<', '>', '(', ')', '\x7b', '\x7d', '[', ']', '\\', '/']

/-- `CallGraph._is_valid_method_name` (defined in the source but never invoked
by `add_call`): non-empty, no invalid characters after stripping boundary dots,
at least two dot-separated segments, every segment a Java identifier. -/
def isValidMethodName (method_name : String) : Bool :=
  if method_name = "" then false
  else
    let stripped := stripDotsBoth method_name
    if stripped.data.any (fun c => invalidNameChars.contains c) then false
    else
      let parts := splitOnDot stripped
      if parts.length < 2 then false
      else parts.all (fun part =>
        match part.data with
        | [] => false
        | c :: _ =>
          (c.isAlpha || c = '_') && part.data.all (fun ch => ch.isAlphanum || ch = '_'))

/-- The document written by `CallGraph.save`: `metadata` counts, `methods`
(the node records verbatim), and `call_hierarchy` with each adjacency set
materialized as a list on the wire. -/
structure WireDoc where
  metadata_total_methods : Nat
  metadata_total_calls : Nat
  methods : List (String × NodeRecord)
  call_hierarchy : List (String × (List String × List String))
deriving DecidableEq

/-- One serialized adjacency entry: `list(calls['callers']), list(calls['callees'])`.
The Python list order is unspecified set-iteration order; we materialize
canonically (sorted) and quantify round-trip theorems over any reordering. -/
def serializeEntry (e : EdgeEntry) : List String × List String :=
  (e.callers.sort (· ≤ ·), e.callees.sort (· ≤ ·))

/-- `CallGraph.save` (JSON encoding and file I/O elided): the structured
document handed to `json.dump`. -/
def CallGraph.save (g : CallGraph) : WireDoc :=
  { metadata_total_methods := g.nodes.length,
    metadata_total_calls := (g.edges.map (fun p => p.2.callees.card)).sum,
    methods := g.nodes,
    call_hierarchy := g.edges.map (fun p => (p.1, serializeEntry p.2)) }

/-- `CallGraph.load`: take `methods` verbatim and rehydrate each wire list
back into a set. -/
def CallGraph.load (w : WireDoc) : CallGraph :=
  { nodes := w.methods,
    edges := w.call_hierarchy.map (fun p => (p.1, ⟨p.2.1.toFinset, p.2.2.toFinset⟩)) }

/-- The qualifier of a `javalang` `MethodInvocation` node as consumed by
`_resolve_method_call`: absent, a `MemberReference` (field access), or a plain
string. -/
inductive Qualifier where
  | none
  | memberRef (member : String)
  | str (s : String)
deriving DecidableEq

/-- `JavaASTExtractor._resolve_method_call` (src/ast_extractor.py 948-1043).
Inputs beyond the call node: the enclosing type, the file's field-type map,
its import map, and the set of types that have a `method_index` entry (the
`file_path` lookup raises `KeyError` — caught, returning `None` — when the
current type is not indexed).  A falsy `current_type` hits a logging line that
references an unbound variable; the raised error is caught and `None` is
returned.  Note there is no local-variable scope input: the function never
consults local/parameter declarations. -/
def resolve_method_call (member : String) (qualifier : Qualifier) (current_type : String)
    (field_types imports : List (String × String)) (indexed_types : List String) :
    Option String :=
  if current_type = "" then none
  else if indexed_types.contains current_type then
    let callee : Option String :=
      match qualifier with
      | .none => some (current_type ++ "." ++ member)
      | .memberRef field_name =>
        match lookupStr field_name field_types with
        | some field_type =>
          match lookupStr field_type imports with
          | some imp => some (imp ++ "." ++ member)
          | none => some (field_type ++ "." ++ member)
        | none =>
          match lookupStr field_name imports with
          | some imp => some (imp ++ "." ++ member)
          | none => some (rsplitHead current_type ++ "." ++ field_name ++ "." ++ member)
      | .str q =>
        match lookupStr q imports with
        | some imp => some (imp ++ "." ++ member)
        | none =>
          if q.data.contains '.' then some (q ++ "." ++ member)
          else some (rsplitHead current_type ++ "." ++ q ++ "." ++ member)
    -- `if callee:` — the empty string is falsy and skips normalization
    callee.map (fun c => if c = "" then c else normalizeDots c)
  else none

/-- Drop a literal from the front of a character list, or fail. -/
def chopLit (lit cs : List Char) : Option (List Char) :=
  if lit.isPrefixOf cs then some (cs.drop lit.length) else none

/-- Numeric value of a digit run. -/
def natOfDigits (ds : List Char) : Nat :=
  ds.foldl (fun n c => 10 * n + (c.toNat - '0'.toNat)) 0

/-- One `\d+` with an optional `(?:,\d+)?` tail, as in the hunk-header regex:
a nonempty digit run, then, when a comma follows, a second nonempty digit run.
Returns the leading run's value and the remaining characters. -/
def parseRange (cs : List Char) : Option (Nat × List Char) :=
  match cs.span Char.isDigit with
  | ([], _) => none
  | (ds, rest) =>
    match rest with
    | ',' :: rest' =>
      match rest'.span Char.isDigit with
      | ([], _) => none
      | (_, rest'') => some (natOfDigits ds, rest'')
    | _ => some (natOfDigits ds, rest)

/-- `re.match(r'@@ -\d+(?:,\d+)? \+(\d+)(?:,\d+)? @@', line)`: on success,
group 1 — the new-file starting line of the hunk. -/
def parseHunkHeader (line : String) : Option Nat :=
  match chopLit "@@ -".data line.data with
  | Option.none => none
  | some cs =>
    match parseRange cs with
    | Option.none => none
    | some (_, cs) =>
      match chopLit " +".data cs with
      | Option.none => none
      | some cs =>
        match parseRange cs with
        | Option.none => none
        | some (n, cs) =>
          match chopLit " @@".data cs with
          | Option.none => none
          | some _ => some n

/-- `re.match(r'diff --git (?:src://)?(.+?) (?:dst://)?.*', line)`: on success,
group 1 — after the literal and an optional `src://`, the (nonempty, lazy)
run of characters up to the first following space. -/
def parseFileHeader (line : String) : Option String :=
  match chopLit "diff --git ".data line.data with
  | Option.none => none
  | some cs =>
    let cs := match chopLit "src://".data cs with
      | some cs' => cs'
      | Option.none => cs
    match cs.span (fun c => c ≠ ' ') with
    | ([], _) => none
    | (seg, rest) =>
      match rest with
      | ' ' :: _ => some ⟨seg⟩
      | _ => none

/-- Path cleanup applied to a matched file header: convert separators
(`os.path.sep` is `/` here) and strip a leading `src/`. -/
def cleanDiffPath (p : String) : String :=
  let q : String := ⟨p.data.map (fun c => if c = '\\' then '/' else c)⟩
  if strStartsWith q "src/" then ⟨q.data.drop 4⟩ else q

/-- Insert into a sorted list, keeping it sorted (helper for `sortNats`). -/
def insertSorted (n : Nat) : List Nat → List Nat
  | [] => [n]
  | m :: rest => if n ≤ m then n :: m :: rest else m :: insertSorted n rest

/-- Python `sorted(...)` over naturals (insertion sort). -/
def sortNats (l : List Nat) : List Nat :=
  l.foldr insertSorted []

/-- Record a modified line for the current file (`changes[f]['modified_lines'].add(n)`);
the per-file Python `set` is modelled as a duplicate-free list (`List.insert`).
The key always exists, having been created by the file header. -/
def addModifiedLine (f : String) (n : Nat) (changes : List (String × List Nat)) :
    List (String × List Nat) :=
  match lookupStr f changes with
  | some s => dictInsert f (s.insert n) changes
  | none => changes

/-- The line loop of `JavaASTExtractor.parse_diff`: file headers reset the
per-file set and leave hunk mode; hunk headers set the running counter; inside
a hunk, an added line records the counter and advances it, a removed line
records without advancing, a `\`-marker line is ignored, and any other line
advances the counter. -/
def parseDiffLines : List String → List (String × List Nat) → Option String → Nat → Bool →
    List (String × List Nat)
  | [], changes, _, _, _ => changes
  | line :: rest, changes, current_file, n, in_hunk =>
    match parseFileHeader line with
    | some p =>
      let path := cleanDiffPath p
      parseDiffLines rest (dictInsert path [] changes) (some path) n false
    | Option.none =>
      match parseHunkHeader line with
      | some start => parseDiffLines rest changes current_file start true
      | Option.none =>
        match current_file, in_hunk with
        | some f, true =>
          if strStartsWith line "+" && !strStartsWith line "+++" then
            parseDiffLines rest (addModifiedLine f n changes) current_file (n + 1) in_hunk
          else if strStartsWith line "-" && !strStartsWith line "---" then
            parseDiffLines rest (addModifiedLine f n changes) current_file n in_hunk
          else if !strStartsWith line "\\" then
            parseDiffLines rest changes current_file (n + 1) in_hunk
          else
            parseDiffLines rest changes current_file n in_hunk
        | _, _ => parseDiffLines rest changes current_file n in_hunk

/-- `JavaASTExtractor.parse_diff`, over the diff text's lines: the per-file
modified-line sets, each finally materialized as a sorted ascending list. -/
def parse_diff (lines : List String) : List (String × List Nat) :=
  (parseDiffLines lines [] Option.none 0 false).map (fun p => (p.1, sortNats p.2))

/-- A method/constructor declaration as consumed by `find_methods_by_lines`:
simple name, parser start position (`node.position.line`, absent when the
parser supplies none), and the end line computed by `_find_node_end_line`
(which returns `None` when the node has no position or on any error). -/
structure DeclNode where
  name : String
  position : Option Nat
  endLine : Option Nat
deriving DecidableEq

/-- `JavaASTExtractor.find_methods_by_lines` (src/ast_extractor.py 1088-1162)
over the declarations found in the parsed file (methods, then constructors).
A declaration participates only when both its start and end line are truthy;
it is affected when some modified line falls in its inclusive range (the inner
`for`/`break`).  The affected list is deduplicated by `list(set(...))`, which
we express as a `Finset`; `method_line_map` records every truthy range. -/
def find_methods_by_lines (current_type : String) (methods constructors : List DeclNode)
    (modified_lines : List Nat) : Finset String × List (String × (Nat × Nat)) :=
  let decls := methods ++ constructors
  let method_line_map :=
    decls.foldl (fun m d =>
      match d.position, d.endLine with
      | some s, some e =>
        if s ≠ 0 ∧ e ≠ 0 then dictInsert (current_type ++ "." ++ d.name) (s, e) m else m
      | _, _ => m) []
  let affected :=
    decls.filterMap (fun d =>
      match d.position, d.endLine with
      | some s, some e =>
        if s ≠ 0 ∧ e ≠ 0 ∧ ∃ line ∈ modified_lines, s ≤ line ∧ line ≤ e then
          some (current_type ++ "." ++ d.name)
        else none
      | _, _ => none)
  (affected.toFinset, method_line_map)

/-- `edges[x]` read off an adjacency list, with the empty entry for an absent
key (an absent key and an empty entry are indistinguishable to membership). -/
def edgeAtL (l : List (String × EdgeEntry)) (x : String) : EdgeEntry :=
  (lookupStr x l).getD ⟨∅, ∅⟩

/-- `g.edges[x]` with the empty entry for an absent key. -/
def edgeAt (g : CallGraph) (x : String) : EdgeEntry :=
  edgeAtL g.edges x

/-- The symmetry invariant of the call graph:
`B ∈ edges[A].callees ↔ A ∈ edges[B].callers`. -/
def SymmetricGraph (g : CallGraph) : Prop :=
  ∀ a b : String, b ∈ (edgeAt g a).callees ↔ a ∈ (edgeAt g b).callers

/-- Graph states reachable through the graph's own mutation API
(`__init__`, `add_method`, `add_call`). -/
inductive Reachable : CallGraph → Prop
  | empty : Reachable CallGraph.empty
  | add_method (g : CallGraph) (qn : String) (info : MethodInfo) :
      Reachable g → Reachable (g.add_method qn info)
  | add_call (g : CallGraph) (a b : String) :
      Reachable g → Reachable (g.add_call a b)

/-- Two wire adjacency rows carry the same key and the same caller/callee
sets, the lists possibly materialized in different orders. -/
def WireRowEquiv (p q : String × (List String × List String)) : Prop :=
  p.1 = q.1 ∧ p.2.1.toFinset = q.2.1.toFinset ∧ p.2.2.toFinset = q.2.2.toFinset

theorem lookupStr_dictInsert {α : Type} (n k : String) (v : α) (l : List (String × α)) :
    lookupStr n (dictInsert k v l) = if n = k then some v else lookupStr n l := by
  induction l with
  | nil =>
    by_cases h : n = k <;> simp [dictInsert, lookupStr, h, eq_comm]
  | cons p rest ih =>
    obtain ⟨k', v'⟩ := p
    by_cases h1 : k' = k
    · subst h1
      by_cases h2 : n = k'
      · subst h2; simp [dictInsert, lookupStr]
      · simp [dictInsert, lookupStr, h2, show ¬ k' = n from fun hh => h2 hh.symm]
    · by_cases h2 : k' = n
      · subst h2
        simp [dictInsert, lookupStr, h1, show ¬ k' = k from h1]
      · simp [dictInsert, lookupStr, h1, h2, ih]

theorem lookupStr_map {α β : Type} (n : String) (f : α → β) (l : List (String × α)) :
    lookupStr n (l.map (fun p => (p.1, f p.2))) = (lookupStr n l).map f := by
  induction l with
  | nil => simp [lookupStr]
  | cons p rest ih =>
    obtain ⟨k, v⟩ := p
    by_cases h : k = n <;> simp [lookupStr, h, ih]

theorem lookupStr_ensureNode (l : List (String × EdgeEntry)) (k x : String) :
    lookupStr x (ensureNode l k) =
      if x = k then some (edgeAtL l k) else lookupStr x l := by
  unfold ensureNode edgeAtL
  cases h : lookupStr k l with
  | some e =>
    simp only [h, Option.getD_some]
    split_ifs with h1
    · subst h1; exact h
    · rfl
  | none =>
    simp [h, lookupStr_dictInsert]

theorem edgeAtL_ensureNode (l : List (String × EdgeEntry)) (k x : String) :
    edgeAtL (ensureNode l k) x = edgeAtL l x := by
  unfold edgeAtL
  rw [lookupStr_ensureNode]
  split_ifs with h1
  · subst h1; rfl
  · rfl

theorem lookupStr_ensureNode_isSome (l : List (String × EdgeEntry)) (k : String) :
    (lookupStr k (ensureNode l k)).isSome = true := by
  rw [lookupStr_ensureNode]
  simp

theorem lookupStr_modifyEntry (l : List (String × EdgeEntry)) (k x : String)
    (f : EdgeEntry → EdgeEntry) (h : (lookupStr k l).isSome = true) :
    lookupStr x (modifyEntry l k f) =
      if x = k then (lookupStr k l).map f else lookupStr x l := by
  unfold modifyEntry
  cases hk : lookupStr k l with
  | some e => simp [lookupStr_dictInsert]
  | none => rw [hk] at h; simp at h

theorem add_call_edgeAt (g : CallGraph) (c d x : String)
    (h : acceptedCall c d = true) :
    edgeAt (g.add_call c d) x =
      ⟨if x = d then insert c (edgeAt g x).callers else (edgeAt g x).callers,
       if x = c then insert d (edgeAt g x).callees else (edgeAt g x).callees⟩ := by
  unfold CallGraph.add_call
  rw [if_pos h]
  set E := g.edges with hE
  have hc2 : lookupStr c (ensureNode (ensureNode E c) d) = some (edgeAtL E c) := by
    rw [lookupStr_ensureNode]
    split_ifs with h1
    · subst h1
      rw [edgeAtL_ensureNode]
    · rw [lookupStr_ensureNode, if_pos rfl]
  have hd2 : lookupStr d (ensureNode (ensureNode E c) d) = some (edgeAtL (ensureNode E c) d) := by
    rw [lookupStr_ensureNode, if_pos rfl]
  have hd2' : lookupStr d (ensureNode (ensureNode E c) d) = some (edgeAtL E d) := by
    rw [hd2, edgeAtL_ensureNode]
  have h2eq : ∀ y, edgeAtL (ensureNode (ensureNode E c) d) y = edgeAtL E y := by
    intro y; rw [edgeAtL_ensureNode, edgeAtL_ensureNode]
  set e2 := ensureNode (ensureNode E c) d with he2
  set f1 : EdgeEntry → EdgeEntry := fun e => { e with callees := insert d e.callees } with hf1
  set f2 : EdgeEntry → EdgeEntry := fun e => { e with callers := insert c e.callers } with hf2
  have hc2s : (lookupStr c e2).isSome = true := by rw [hc2]; rfl
  have h3 : ∀ y, lookupStr y (modifyEntry e2 c f1) =
      if y = c then some (f1 (edgeAtL E c)) else lookupStr y e2 := by
    intro y
    rw [lookupStr_modifyEntry e2 c y f1 hc2s, hc2]
    rfl
  have hd3s : (lookupStr d (modifyEntry e2 c f1)).isSome = true := by
    rw [h3]
    split_ifs with h1
    · rfl
    · rw [hd2']; rfl
  have h4 : ∀ y, lookupStr y (modifyEntry (modifyEntry e2 c f1) d f2) =
      if y = d then (lookupStr d (modifyEntry e2 c f1)).map f2
      else lookupStr y (modifyEntry e2 c f1) := by
    intro y
    exact lookupStr_modifyEntry _ d y f2 hd3s
  show edgeAtL (modifyEntry (modifyEntry e2 c f1) d f2) x = _
  unfold edgeAtL
  rw [h4]
  by_cases hxd : x = d
  · rw [if_pos hxd, h3]
    by_cases hdc : d = c
    · rw [if_pos hdc]
      subst hxd
      rw [if_pos hdc, if_pos rfl]
      subst hdc
      rfl
    · rw [if_neg hdc, hd2']
      subst hxd
      rw [if_pos rfl, if_neg hdc]
      rfl
  · rw [if_neg hxd, h3]
    by_cases hxc : x = c
    · rw [if_pos hxc]
      subst hxc
      rw [if_neg hxd, if_pos rfl]
      rfl
    · rw [if_neg hxc, if_neg hxd, if_neg hxc]
      show (lookupStr x e2).getD ⟨∅, ∅⟩ = _
      have := h2eq x
      unfold edgeAtL at this
      rw [this]
      rfl

theorem add_call_not_accepted (g : CallGraph) (c d : String)
    (h : ¬ acceptedCall c d = true) : g.add_call c d = g := by
  unfold CallGraph.add_call
  rw [if_neg h]

theorem edgeAt_add_method (g : CallGraph) (qn : String) (info : MethodInfo) (x : String) :
    edgeAt (g.add_method qn info) x = edgeAt g x := by
  unfold CallGraph.add_method edgeAt
  exact edgeAtL_ensureNode g.edges qn x

theorem symmetric_empty : SymmetricGraph CallGraph.empty := by
  intro a b
  simp [edgeAt, edgeAtL, lookupStr, CallGraph.empty]

theorem symmetric_add_method (g : CallGraph) (qn : String) (info : MethodInfo)
    (hs : SymmetricGraph g) : SymmetricGraph (g.add_method qn info) := by
  intro a b
  rw [edgeAt_add_method, edgeAt_add_method]
  exact hs a b

theorem symmetric_add_call (g : CallGraph) (c d : String)
    (hs : SymmetricGraph g) : SymmetricGraph (g.add_call c d) := by
  by_cases h : acceptedCall c d = true
  · intro a b
    rw [add_call_edgeAt g c d a h, add_call_edgeAt g c d b h]
    simp only
    by_cases hac : a = c <;> by_cases hbd : b = d
    · simp [hac, hbd]
    · simp [hac, hbd, Finset.mem_insert, hs c b]
    · simp [hac, hbd, Finset.mem_insert, hs a d]
    · simp [hac, hbd, hs a b]
  · rw [add_call_not_accepted g c d h]
    exact hs

theorem symmetric_reachable (g : CallGraph) (h : Reachable g) : SymmetricGraph g := by
  induction h with
  | empty => exact symmetric_empty
  | add_method g' qn info _ ih => exact symmetric_add_method g' qn info ih
  | add_call g' a b _ ih => exact symmetric_add_call g' a b ih

theorem get_callees_eq_edgeAt (g : CallGraph) (m : String) :
    g.get_callees m = (edgeAt g m).callees := by
  unfold CallGraph.get_callees edgeAt edgeAtL
  cases lookupStr m g.edges <;> rfl

theorem get_callers_eq_edgeAt (g : CallGraph) (m : String) :
    g.get_callers m = (edgeAt g m).callers := by
  unfold CallGraph.get_callers edgeAt edgeAtL
  cases lookupStr m g.edges <;> rfl

/-- C1: call-graph symmetry.  Every graph state reachable through the graph's
own mutation API satisfies `B ∈ edges[A].callees ↔ A ∈ edges[B].callers`, and
after an accepted `add_call(A, B)` the callee set returned for `A` contains
`B` and the caller set returned for `B` contains `A`. -/
theorem call_graph_symmetry (g : CallGraph) (h : Reachable g) :
    SymmetricGraph g ∧
    ∀ a b : String, acceptedCall a b = true →
      b ∈ (g.add_call a b).get_callees a ∧ a ∈ (g.add_call a b).get_callers b := by
  refine ⟨symmetric_reachable g h, fun a b hab => ?_⟩
  rw [get_callees_eq_edgeAt, get_callers_eq_edgeAt,
    add_call_edgeAt g a b a hab, add_call_edgeAt g a b b hab]
  constructor
  · simp
  · simp

/-- Witness for C1: the empty graph is reachable, and the accepted call
`p.a → q.b` lands in both adjacency sets. -/
theorem call_graph_symmetry_witness :
    SymmetricGraph CallGraph.empty ∧
    ("q.b" ∈ (CallGraph.empty.add_call "p.a" "q.b").get_callees "p.a" ∧
     "p.a" ∈ (CallGraph.empty.add_call "p.a" "q.b").get_callers "q.b") :=
  ⟨(call_graph_symmetry CallGraph.empty Reachable.empty).1,
   (call_graph_symmetry CallGraph.empty Reachable.empty).2 "p.a" "q.b" (by decide)⟩

theorem ensureNode_of_isSome (l : List (String × EdgeEntry)) (k : String)
    (h : (lookupStr k l).isSome = true) : ensureNode l k = l := by
  unfold ensureNode
  cases hk : lookupStr k l with
  | some e => rfl
  | none => rw [hk] at h; simp at h

theorem ensureNode_idem (l : List (String × EdgeEntry)) (k : String) :
    ensureNode (ensureNode l k) k = ensureNode l k :=
  ensureNode_of_isSome (ensureNode l k) k (lookupStr_ensureNode_isSome l k)

theorem ensureNode_preserves (l : List (String × EdgeEntry)) (k n : String) (e : EdgeEntry)
    (h : lookupStr n l = some e) : lookupStr n (ensureNode l k) = some e := by
  rw [lookupStr_ensureNode]
  split_ifs with h1
  · subst h1
    unfold edgeAtL
    rw [h]
    rfl
  · exact h

/-- C5: `add_method` idempotence and edge preservation.  Re-running
`add_method` with the same qualified name and record leaves the edge map
exactly as after the first run, and `add_method` never removes or alters any
existing adjacency entry. -/
theorem add_method_idempotent_edges (g : CallGraph) (qn : String) (info : MethodInfo) :
    ((g.add_method qn info).add_method qn info).edges = (g.add_method qn info).edges ∧
    ∀ n e, lookupStr n g.edges = some e →
      lookupStr n (g.add_method qn info).edges = some e := by
  constructor
  · show ensureNode (ensureNode g.edges qn) qn = ensureNode g.edges qn
    exact ensureNode_idem g.edges qn
  · intro n e h
    exact ensureNode_preserves g.edges qn n e h

/-- Witness for C5: a node with an existing call edge keeps its adjacency
entry when its metadata is re-indexed. -/
theorem add_method_idempotent_edges_witness :
    lookupStr "p.a" (CallGraph.empty.add_call "p.a" "q.b").edges =
      some ⟨∅, {"q.b"}⟩ ∧
    lookupStr "p.a"
        ((CallGraph.empty.add_call "p.a" "q.b").add_method "p.a"
          ⟨"a", "A.java", "p", Option.none, Option.none, "method", [], Option.none⟩).edges =
      some ⟨∅, {"q.b"}⟩ :=
  ⟨by decide,
   (add_method_idempotent_edges (CallGraph.empty.add_call "p.a" "q.b") "p.a"
      ⟨"a", "A.java", "p", Option.none, Option.none, "method", [], Option.none⟩).2
     "p.a" ⟨∅, {"q.b"}⟩ (by decide)⟩

/-- C9: the implicit common-type-name drop.  Whenever the segment after the
last dot of either argument is one of the hard-coded common Java type names,
`add_call` leaves the graph completely unchanged. -/
theorem add_call_common_type_drop (g : CallGraph) (caller callee : String)
    (h : lastSegment caller ∈ commonJavaTypes ∨ lastSegment callee ∈ commonJavaTypes) :
    g.add_call caller callee = g := by
  apply add_call_not_accepted
  intro hacc
  unfold acceptedCall at hacc
  have hstd : isStandardLibraryCall caller = true ∨ isStandardLibraryCall callee = true := by
    rcases h with h | h
    · left
      unfold isStandardLibraryCall
      refine Bool.or_eq_true_iff.mpr (Or.inr ?_)
      exact List.any_eq_true.mpr ⟨lastSegment caller, h, by simp⟩
    · right
      unfold isStandardLibraryCall
      refine Bool.or_eq_true_iff.mpr (Or.inr ?_)
      exact List.any_eq_true.mpr ⟨lastSegment callee, h, by simp⟩
  rcases Bool.and_eq_true_iff.mp hacc with ⟨_, h2⟩
  rcases hstd with hstd | hstd <;> simp [hstd] at h2

/-- Witness for C9: a project constructor call targeting `pkg.Date.Date` is
dropped even though it lies outside every excluded namespace prefix. -/
theorem add_call_common_type_drop_witness :
    (lastSegment "pkg.Date.Date" ∈ commonJavaTypes ∨
      lastSegment "pkg.Date.Date" ∈ commonJavaTypes) ∧
    (CallGraph.empty.add_call "pkg.A.m" "pkg.Date.Date") = CallGraph.empty :=
  ⟨Or.inr (by decide),
   add_call_common_type_drop CallGraph.empty "pkg.A.m" "pkg.Date.Date" (Or.inr (by decide))⟩

theorem append_dot_ne_empty (a b : String) : a ++ "." ++ b ≠ "" := by
  intro hcon
  have hlen := congrArg String.length hcon
  rw [String.length_append, String.length_append] at hlen
  have hdot : ("." : String).length = 1 := rfl
  rw [hdot] at hlen
  simp at hlen

theorem add_call_stores_endpoints (g : CallGraph) (c d : String)
    (h : acceptedCall c d = true) :
    (lookupStr c (g.add_call c d).edges).isSome = true ∧
    (lookupStr d (g.add_call c d).edges).isSome = true := by
  unfold CallGraph.add_call
  rw [if_pos h]
  set E := g.edges with hE
  have hc2 : (lookupStr c (ensureNode (ensureNode E c) d)).isSome = true := by
    rw [lookupStr_ensureNode]
    split_ifs with h1
    · rfl
    · rw [lookupStr_ensureNode, if_pos rfl]
      rfl
  have hd2 : (lookupStr d (ensureNode (ensureNode E c) d)).isSome = true := by
    rw [lookupStr_ensureNode, if_pos rfl]
    rfl
  set e2 := ensureNode (ensureNode E c) d with he2
  set f1 : EdgeEntry → EdgeEntry := fun e => { e with callees := insert d e.callees } with hf1
  set f2 : EdgeEntry → EdgeEntry := fun e => { e with callers := insert c e.callers } with hf2
  have hc3 : (lookupStr c (modifyEntry e2 c f1)).isSome = true := by
    rw [lookupStr_modifyEntry e2 c c f1 hc2, if_pos rfl]
    simpa using hc2
  have hd3 : (lookupStr d (modifyEntry e2 c f1)).isSome = true := by
    rw [lookupStr_modifyEntry e2 c d f1 hc2]
    split_ifs with h1
    · simpa using hc2
    · exact hd2
  constructor
  · show (lookupStr c (modifyEntry (modifyEntry e2 c f1) d f2)).isSome = true
    rw [lookupStr_modifyEntry _ d c f2 hd3]
    split_ifs with h1
    · simpa using hd3
    · exact hc3
  · show (lookupStr d (modifyEntry (modifyEntry e2 c f1) d f2)).isSome = true
    rw [lookupStr_modifyEntry _ d d f2 hd3, if_pos rfl]
    simpa using hd3

/-- C2 counterexample: `add_call` stores the one-segment name `a` as a graph
node; the (never invoked) validator classifies it as invalid. -/
theorem add_call_no_validation_counterexample :
    (splitOnDot "a").length < 2 ∧ isValidMethodName "a" = false ∧
    (lookupStr "a" (CallGraph.empty.add_call "a" "b").edges).isSome = true :=
  ⟨by decide, by decide, by decide⟩

/-- C2 (amended): `add_call` performs no qualified-name validation.  Every
call that escapes the namespace-prefix and common-type filters is inserted,
storing both endpoints as graph nodes — including names with fewer than two
dot-separated segments. -/
theorem add_call_inserts_unvalidated (g : CallGraph) (caller callee : String)
    (h : acceptedCall caller callee = true) :
    (lookupStr caller (g.add_call caller callee).edges).isSome = true ∧
    (lookupStr callee (g.add_call caller callee).edges).isSome = true :=
  add_call_stores_endpoints g caller callee h

/-- Witness for the amended C2: the single-segment pair `a → b` is accepted
and both names end up stored. -/
theorem add_call_inserts_unvalidated_witness :
    acceptedCall "a" "b" = true ∧
    (lookupStr "a" (CallGraph.empty.add_call "a" "b").edges).isSome = true ∧
    (lookupStr "b" (CallGraph.empty.add_call "a" "b").edges).isSome = true :=
  ⟨by decide,
   (add_call_inserts_unvalidated CallGraph.empty "a" "b" (by decide)).1,
   (add_call_inserts_unvalidated CallGraph.empty "a" "b" (by decide)).2⟩

theorem resolve_str_fallback (member current_type q : String)
    (field_types imports : List (String × String)) (indexed_types : List String)
    (h1 : current_type ≠ "") (h2 : indexed_types.contains current_type = true)
    (h3 : lookupStr q imports = Option.none) (h4 : q.data.contains '.' = false) :
    resolve_method_call member (.str q) current_type field_types imports indexed_types
      = some (normalizeDots (rsplitHead current_type ++ "." ++ q ++ "." ++ member)) := by
  unfold resolve_method_call
  rw [if_neg h1, if_pos h2]
  simp only [h3]
  have h4' : ¬ (q.data.contains '.' = true) := fun hc => by
    rw [h4] at hc
    exact Bool.false_ne_true hc
  rw [if_neg h4']
  simp only [Option.map_some']
  rw [if_neg (append_dot_ne_empty (rsplitHead current_type ++ "." ++ q) member)]

theorem resolve_memberRef_field (member current_type field_name field_type : String)
    (field_types imports : List (String × String)) (indexed_types : List String)
    (h1 : current_type ≠ "") (h2 : indexed_types.contains current_type = true)
    (h5 : lookupStr field_name field_types = some field_type)
    (h6 : lookupStr field_type imports = Option.none) :
    resolve_method_call member (.memberRef field_name) current_type field_types imports
        indexed_types
      = some (normalizeDots (field_type ++ "." ++ member)) := by
  unfold resolve_method_call
  rw [if_neg h1, if_pos h2]
  simp only [h5, h6]
  simp only [Option.map_some']
  rw [if_neg (append_dot_ne_empty field_type member)]

/-- C3 counterexample: the resolver has no generic-method exclusion set.  The
call `list.size()` (string qualifier `list`, member `size`) resolves to
`com.app.list.size`, and `add_call` then records that edge. -/
theorem generic_method_exclusion_counterexample :
    resolve_method_call "size" (.str "list") "com.app.A" [] [] ["com.app.A"]
      = some "com.app.list.size" ∧
    "com.app.list.size" ∈
      (CallGraph.empty.add_call "com.app.A.run" "com.app.list.size").get_callees
        "com.app.A.run" :=
  ⟨by decide, by decide⟩

/-- C3 (amended): resolution never inspects the member name against an
exclusion set.  A call with an unimported, dot-free qualifier (such as
`list.size()`) resolves to the same-package fallback name, and whenever that
name passes `add_call`'s namespace-prefix and common-type filters the edge is
recorded in the graph. -/
theorem no_generic_method_exclusion (g : CallGraph) (caller member current_type q r : String)
    (field_types imports : List (String × String)) (indexed_types : List String)
    (h1 : current_type ≠ "") (h2 : indexed_types.contains current_type = true)
    (h3 : lookupStr q imports = Option.none) (h4 : q.data.contains '.' = false)
    (hr : r = normalizeDots (rsplitHead current_type ++ "." ++ q ++ "." ++ member))
    (hacc : acceptedCall caller r = true) :
    resolve_method_call member (.str q) current_type field_types imports indexed_types
      = some r ∧
    r ∈ (g.add_call caller r).get_callees caller := by
  constructor
  · rw [resolve_str_fallback member current_type q field_types imports indexed_types
      h1 h2 h3 h4, hr]
  · rw [get_callees_eq_edgeAt, add_call_edgeAt g caller r caller hacc]
    simp

/-- Witness for the amended C3: the `list.size()` instance inside indexed
class `com.app.A`. -/
theorem no_generic_method_exclusion_witness :
    acceptedCall "com.app.A.run" "com.app.list.size" = true ∧
    resolve_method_call "size" (.str "list") "com.app.A" [] [] ["com.app.A"]
      = some "com.app.list.size" ∧
    "com.app.list.size" ∈
      (CallGraph.empty.add_call "com.app.A.run" "com.app.list.size").get_callees
        "com.app.A.run" :=
  ⟨by decide,
   (no_generic_method_exclusion CallGraph.empty "com.app.A.run" "size" "com.app.A" "list"
      "com.app.list.size" [] [] ["com.app.A"] (by decide) (by decide) (by decide) (by decide)
      (by decide) (by decide)).1,
   (no_generic_method_exclusion CallGraph.empty "com.app.A.run" "size" "com.app.A" "list"
      "com.app.list.size" [] [] ["com.app.A"] (by decide) (by decide) (by decide) (by decide)
      (by decide) (by decide)).2⟩

/-- C4 counterexample: in a class `com.app.C` whose field map binds `x` to
`Bar` (the claim's scenario: a local `x : Foo` shadowing a field `x : Bar` —
locals cannot even be supplied to the resolver), the call `x.m()` resolves to
the same-package fallback `com.app.x.m`, not to `Foo.m`. -/
theorem local_shadows_field_counterexample :
    resolve_method_call "m" (.str "x") "com.app.C" [("x", "Bar")] [] ["com.app.C"]
      = some "com.app.x.m" ∧
    ("com.app.x.m" : String) ≠ "Foo.m" ∧
    ("com.app.x.m" : String) ≠ "com.app.Foo.m" ∧
    ("com.app.x.m" : String) ≠ "Bar.m" :=
  ⟨by decide, by decide, by decide, by decide⟩

/-- C4 (amended): resolution has no local-variable scope.  For a string
qualifier `x` (unimported, dot-free) the result is the same-package fallback
`package(currentType).x.m` regardless of any local-variable or field types;
the field-type map is consulted only when the qualifier is a member
reference, in which case the field's type (`Bar`) — never a local's — names
the callee. -/
theorem resolve_ignores_local_scope (member current_type q field_type : String)
    (field_types imports : List (String × String)) (indexed_types : List String)
    (h1 : current_type ≠ "") (h2 : indexed_types.contains current_type = true)
    (h3 : lookupStr q imports = Option.none) (h4 : q.data.contains '.' = false)
    (h5 : lookupStr q field_types = some field_type)
    (h6 : lookupStr field_type imports = Option.none) :
    resolve_method_call member (.str q) current_type field_types imports indexed_types
      = some (normalizeDots (rsplitHead current_type ++ "." ++ q ++ "." ++ member)) ∧
    resolve_method_call member (.memberRef q) current_type field_types imports indexed_types
      = some (normalizeDots (field_type ++ "." ++ member)) :=
  ⟨resolve_str_fallback member current_type q field_types imports indexed_types h1 h2 h3 h4,
   resolve_memberRef_field member current_type q field_type field_types imports indexed_types
     h1 h2 h5 h6⟩

/-- Witness for the amended C4: the claim's own scenario (`x` bound to `Bar`
in the field map of `com.app.C`). -/
theorem resolve_ignores_local_scope_witness :
    lookupStr "x" [("x", "Bar")] = some "Bar" ∧
    resolve_method_call "m" (.str "x") "com.app.C" [("x", "Bar")] [] ["com.app.C"]
      = some "com.app.x.m" ∧
    resolve_method_call "m" (.memberRef "x") "com.app.C" [("x", "Bar")] [] ["com.app.C"]
      = some "Bar.m" := by
  refine ⟨by decide, ?_, ?_⟩
  · have h := (resolve_ignores_local_scope "m" "com.app.C" "x" "Bar" [("x", "Bar")] []
      ["com.app.C"] (by decide) (by decide) (by decide) (by decide) (by decide) (by decide)).1
    rw [h]
    decide
  · have h := (resolve_ignores_local_scope "m" "com.app.C" "x" "Bar" [("x", "Bar")] []
      ["com.app.C"] (by decide) (by decide) (by decide) (by decide) (by decide) (by decide)).2
    rw [h]
    decide

/-- C6 counterexample: for the hunk `@@ -10,3 +10,5 @@` followed by 2 context
lines, 1 removed line and 3 added lines, the recorded modified-line set has 3
entries, not 4 — the removed position (12) coincides with the first added
position and set semantics deduplicates them. -/
theorem diff_line_accounting_counterexample :
    parse_diff ["diff --git a/Foo.java b/Foo.java", "@@ -10,3 +10,5 @@",
        " int a;", " int b;", "-int c;", "+int d;", "+int e;", "+int f;"]
      = [("a/Foo.java", [12, 13, 14])] ∧
    ¬ ([12, 13, 14] : List Nat).length = 4 :=
  ⟨by decide, by decide⟩

/-- C6 (amended): the same hunk yields exactly 3 entries, all ≥ 10.  The two
context lines advance the counter to 12; the removed line records 12 without
advancing; the three added lines record 12, 13, 14, each advancing — and the
removed position, coinciding with the first added position, is deduplicated
by set semantics.  The result is returned sorted ascending. -/
theorem diff_line_accounting :
    parse_diff ["diff --git a/Foo.java b/Foo.java", "@@ -10,3 +10,5 @@",
        " int a;", " int b;", "-int c;", "+int d;", "+int e;", "+int f;"]
      = [("a/Foo.java", [12, 13, 14])] ∧
    ([12, 13, 14] : List Nat).length = 3 ∧
    ∀ x ∈ ([12, 13, 14] : List Nat), 10 ≤ x :=
  ⟨by decide, by decide, by decide⟩

/-- C7: inclusive range containment.  A declaration with truthy computed
range `(s, e)` (and a qualified name no other declaration shares) is reported
affected iff some modified line `L` satisfies `s ≤ L ≤ e`. -/
theorem range_containment (current_type : String) (methods constructors : List DeclNode)
    (modified_lines : List Nat) (d : DeclNode) (s e : Nat)
    (hmem : d ∈ methods ++ constructors)
    (hs : d.position = some s) (he : d.endLine = some e)
    (hs0 : s ≠ 0) (he0 : e ≠ 0)
    (huniq : ∀ d' ∈ methods ++ constructors,
      current_type ++ "." ++ d'.name = current_type ++ "." ++ d.name → d' = d) :
    ((current_type ++ "." ++ d.name)
        ∈ (find_methods_by_lines current_type methods constructors modified_lines).1
      ↔ ∃ line ∈ modified_lines, s ≤ line ∧ line ≤ e) := by
  unfold find_methods_by_lines
  simp only [List.mem_toFinset, List.mem_filterMap]
  constructor
  · rintro ⟨d', hd', hmatch⟩
    cases hp : d'.position with
    | none => rw [hp] at hmatch; simp at hmatch
    | some s' =>
      cases hq : d'.endLine with
      | none => rw [hp, hq] at hmatch; simp at hmatch
      | some e' =>
        rw [hp, hq] at hmatch
        simp only at hmatch
        split_ifs at hmatch with hcond
        have hname := Option.some.inj hmatch
        have hde : d' = d := huniq d' hd' hname
        subst hde
        rw [hp] at hs
        rw [hq] at he
        have hss : s' = s := Option.some.inj hs
        have hee : e' = e := Option.some.inj he
        subst hss
        subst hee
        exact hcond.2.2
  · rintro ⟨L, hL, h1, h2⟩
    refine ⟨d, hmem, ?_⟩
    rw [hs, he]
    simp only
    rw [if_pos ⟨hs0, he0, L, hL, h1, h2⟩]

/-- Witness for C7: a method spanning 20–35 is affected by modified line 20
(inclusive lower boundary). -/
theorem range_containment_witness :
    ("com.app.C.bar" : String)
      ∈ (find_methods_by_lines "com.app.C" [⟨"bar", some 20, some 35⟩] [] [20]).1 :=
  (range_containment "com.app.C" [⟨"bar", some 20, some 35⟩] [] [20]
      ⟨"bar", some 20, some 35⟩ 20 35 (by decide) rfl rfl (by decide) (by decide)
      (by decide)).mpr
    ⟨20, by decide, by decide, by decide⟩

/-- C10: missing-position exclusion.  A declaration whose parser start
position is absent or whose computed end line is `None` is never reported
affected and gets no `method_line_map` entry, for every modified-line set. -/
theorem missing_position_excluded (current_type : String) (methods constructors : List DeclNode)
    (modified_lines : List Nat) (name : String)
    (h : ∀ d ∈ methods ++ constructors, current_type ++ "." ++ d.name = name →
      d.position = Option.none ∨ d.endLine = Option.none) :
    name ∉ (find_methods_by_lines current_type methods constructors modified_lines).1 ∧
    lookupStr name (find_methods_by_lines current_type methods constructors modified_lines).2
      = Option.none := by
  constructor
  · unfold find_methods_by_lines
    simp only [List.mem_toFinset, List.mem_filterMap]
    rintro ⟨d', hd', hmatch⟩
    cases hp : d'.position with
    | none => rw [hp] at hmatch; simp at hmatch
    | some s' =>
      cases hq : d'.endLine with
      | none => rw [hp, hq] at hmatch; simp at hmatch
      | some e' =>
        rw [hp, hq] at hmatch
        simp only at hmatch
        split_ifs at hmatch with hcond
        have hname := Option.some.inj hmatch
        rcases h d' hd' hname with hc | hc
        · rw [hp] at hc; exact Option.noConfusion hc
        · rw [hq] at hc; exact Option.noConfusion hc
  · unfold find_methods_by_lines
    simp only
    have key : ∀ (decls : List DeclNode) (acc : List (String × (Nat × Nat))),
        (∀ d ∈ decls, current_type ++ "." ++ d.name = name →
          d.position = Option.none ∨ d.endLine = Option.none) →
        lookupStr name acc = Option.none →
        lookupStr name (decls.foldl (fun m d =>
          match d.position, d.endLine with
          | some s, some e =>
            if s ≠ 0 ∧ e ≠ 0 then dictInsert (current_type ++ "." ++ d.name) (s, e) m else m
          | _, _ => m) acc) = Option.none := by
      intro decls
      induction decls with
      | nil => intro acc _ hacc; exact hacc
      | cons d rest ih =>
        intro acc hall hacc
        simp only [List.foldl_cons]
        apply ih _ (fun d' hd' => hall d' (List.mem_cons_of_mem _ hd'))
        cases hp : d.position with
        | none => simpa [hp] using hacc
        | some s =>
          cases hq : d.endLine with
          | none => simpa [hp, hq] using hacc
          | some e =>
            simp only [hp, hq]
            split_ifs with hcond
            · rw [lookupStr_dictInsert]
              split_ifs with hname
              · exfalso
                rcases hall d (List.mem_cons_self d rest) hname.symm with hc | hc
                · rw [hp] at hc; exact Option.noConfusion hc
                · rw [hq] at hc; exact Option.noConfusion hc
              · exact hacc
            · exact hacc
    exact key (methods ++ constructors) [] h rfl

/-- Witness for C10: a method with no parser start position is excluded even
though a modified line (25) falls inside its would-be range. -/
theorem missing_position_excluded_witness :
    ("com.app.C.foo" : String)
        ∉ (find_methods_by_lines "com.app.C" [⟨"foo", Option.none, some 30⟩] [] [25]).1 ∧
    lookupStr "com.app.C.foo"
        (find_methods_by_lines "com.app.C" [⟨"foo", Option.none, some 30⟩] [] [25]).2
      = Option.none :=
  missing_position_excluded "com.app.C" [⟨"foo", Option.none, some 30⟩] [] [25]
    "com.app.C.foo" (by decide)

theorem lookupStr_wire_equiv (l l' : List (String × (List String × List String)))
    (h : List.Forall₂ WireRowEquiv l l') (n : String) :
    (lookupStr n l).isSome = (lookupStr n l').isSome ∧
    ∀ v v', lookupStr n l = some v → lookupStr n l' = some v' →
      v.1.toFinset = v'.1.toFinset ∧ v.2.toFinset = v'.2.toFinset := by
  induction h with
  | nil =>
    refine ⟨rfl, fun v v' hv _ => ?_⟩
    simp [lookupStr] at hv
  | @cons p q l₁ l₂ hpq _ ih =>
    obtain ⟨pk, pv⟩ := p
    obtain ⟨qk, qv⟩ := q
    obtain ⟨hk, hv1, hv2⟩ := hpq
    simp only at hk hv1 hv2
    by_cases hn : pk = n
    · have hqn : qk = n := by rw [← hk]; exact hn
      constructor
      · simp [lookupStr, hn, hqn]
      · intro v v' hv hv'
        simp only [lookupStr, if_pos hn] at hv
        simp only [lookupStr, if_pos hqn] at hv'
        rw [← Option.some.inj hv, ← Option.some.inj hv']
        exact ⟨hv1, hv2⟩
    · have hqn : ¬ qk = n := by rw [← hk]; exact hn
      constructor
      · simp only [lookupStr, if_neg hn, if_neg hqn]
        exact ih.1
      · intro v v' hv hv'
        simp only [lookupStr, if_neg hn] at hv
        simp only [lookupStr, if_neg hqn] at hv'
        exact ih.2 v v' hv hv'

/-- C8: save/load round trip.  For every graph and every wire document equal
to `save g` up to reordering of the materialized caller/callee lists, loading
reproduces an isomorphic graph: the same node records, the same set of
adjacency keys, and the same caller and callee set at every name. -/
theorem save_load_roundtrip (g : CallGraph) (w : WireDoc)
    (hm : w.methods = (CallGraph.save g).methods)
    (hch : List.Forall₂ WireRowEquiv w.call_hierarchy (CallGraph.save g).call_hierarchy) :
    (CallGraph.load w).nodes = g.nodes ∧
    (∀ n, (lookupStr n (CallGraph.load w).edges).isSome
        = (lookupStr n g.edges).isSome) ∧
    (∀ n, edgeAt (CallGraph.load w) n = edgeAt g n) := by
  have hload : ∀ n, lookupStr n (CallGraph.load w).edges
      = (lookupStr n w.call_hierarchy).map
          (fun v => (⟨v.1.toFinset, v.2.toFinset⟩ : EdgeEntry)) := by
    intro n
    show lookupStr n (w.call_hierarchy.map
        (fun p => (p.1, (⟨p.2.1.toFinset, p.2.2.toFinset⟩ : EdgeEntry)))) = _
    exact lookupStr_map n (fun v => (⟨v.1.toFinset, v.2.toFinset⟩ : EdgeEntry)) w.call_hierarchy
  have hsave : ∀ n, lookupStr n (CallGraph.save g).call_hierarchy
      = (lookupStr n g.edges).map serializeEntry := by
    intro n
    show lookupStr n (g.edges.map (fun p => (p.1, serializeEntry p.2))) = _
    exact lookupStr_map n serializeEntry g.edges
  refine ⟨by rw [show (CallGraph.load w).nodes = w.methods from rfl, hm]; rfl, ?_, ?_⟩
  · intro n
    have h1 := (lookupStr_wire_equiv w.call_hierarchy (CallGraph.save g).call_hierarchy hch n).1
    rw [hload, Option.isSome_map', h1, hsave, Option.isSome_map']
  · intro n
    have heq := lookupStr_wire_equiv w.call_hierarchy (CallGraph.save g).call_hierarchy hch n
    unfold edgeAt edgeAtL
    rw [hload]
    cases hg : lookupStr n g.edges with
    | none =>
      have hnone : lookupStr n w.call_hierarchy = Option.none := by
        have h2 := heq.1
        rw [hsave, hg] at h2
        simp at h2
        exact Option.eq_none_of_isNone (by rw [Option.isNone_iff_eq_none]; exact h2)
      rw [hnone]
      rfl
    | some E =>
      have hsome : (lookupStr n w.call_hierarchy).isSome = true := by
        rw [heq.1, hsave, hg]; rfl
      obtain ⟨v, hv⟩ := Option.isSome_iff_exists.mp hsome
      have hrel := heq.2 v (serializeEntry E) hv (by rw [hsave, hg]; rfl)
      rw [hv]
      simp only [Option.map_some', Option.getD_some]
      have h1 : v.1.toFinset = E.callers := by
        rw [hrel.1]
        exact Finset.sort_toFinset _ E.callers
      have h2 : v.2.toFinset = E.callees := by
        rw [hrel.2]
        exact Finset.sort_toFinset _ E.callees
      rw [h1, h2]

/-- Witness for C8: a concrete saved graph reloaded from its own wire
document (the wire relation holds reflexively for any materialization
order). -/
theorem save_load_roundtrip_witness :
    (CallGraph.load (CallGraph.save (CallGraph.empty.add_call "p.a" "q.b"))).nodes
        = (CallGraph.empty.add_call "p.a" "q.b").nodes ∧
    (∀ n, (lookupStr n
          (CallGraph.load (CallGraph.save (CallGraph.empty.add_call "p.a" "q.b"))).edges).isSome
        = (lookupStr n (CallGraph.empty.add_call "p.a" "q.b").edges).isSome) ∧
    (∀ n, edgeAt (CallGraph.load (CallGraph.save (CallGraph.empty.add_call "p.a" "q.b"))) n
        = edgeAt (CallGraph.empty.add_call "p.a" "q.b") n) :=
  save_load_roundtrip (CallGraph.empty.add_call "p.a" "q.b")
    (CallGraph.save (CallGraph.empty.add_call "p.a" "q.b")) rfl
    (List.forall₂_same.mpr (fun _ _ => ⟨rfl, rfl, rfl⟩))
